import Mathlib

/-!
Verification of `make_Makemodule.py` (CASMcode build-manifest generator).

The script is embedded shallowly:

* Python strings are Lean `String`s (or `List Char` where character-level
  reasoning is needed); `str.rstrip()` becomes `rstrip`.
* `re.match(pattern, s)` (anchored-at-position-0 matching, where some prefix
  of `s` may match) is embedded by a small regular-expression AST `Regex`
  with Brzozowski-derivative matching `matchHere`; the concrete pattern
  strings of the script are translated to `Regex` values.
* `os.walk` is modelled by `osWalk` over a filesystem snapshot listing every
  directory (in traversal order) with its files.
* File-writing functions are embedded as functions returning the `String`
  they would write.
* `replace_lines` is embedded over the list of lines `readline` yields
  (each line carrying its trailing newline); the partial-on-some-inputs
  read loop is embedded as an `Option`-valued function where `none` marks
  the input on which the Python loop never terminates.
-/

/-! ### Python string helpers -/

/-- The whitespace characters stripped by Python `str.rstrip()`
(restricted to the ASCII whitespace set). -/
def isPySpace (c : Char) : Bool :=
  c = ' ' || c = '\t' || c = '\n' || c = '\r' || c = '\x0b' || c = '\x0c'

/-- Python `s.rstrip()`: remove trailing whitespace characters. -/
def rstrip (s : String) : String :=
  ⟨(s.data.reverse.dropWhile isPySpace).reverse⟩

/-! ### Regular expressions: embedding of `re.match` as used at
`make_Makemodule.py:78` -/

/-- Regular-expression AST covering the constructs appearing in the pattern
strings of `make_Makemodule.py`: literal characters, `.` (any character
except a newline, Python default), alternation `|`, concatenation,
and Kleene star `*`. -/
inductive Regex where
  | emp : Regex
  | eps : Regex
  | char : Char → Regex
  | any : Regex
  | alt : Regex → Regex → Regex
  | cat : Regex → Regex → Regex
  | star : Regex → Regex
deriving DecidableEq, Repr

/-- The language of a regex, as an inductive predicate. -/
inductive RMatches : Regex → List Char → Prop where
  | eps : RMatches .eps []
  | char (c : Char) : RMatches (.char c) [c]
  | any (c : Char) : c ≠ '\n' → RMatches .any [c]
  | altL {r r' : Regex} {s : List Char} : RMatches r s → RMatches (.alt r r') s
  | altR {r r' : Regex} {s : List Char} : RMatches r' s → RMatches (.alt r r') s
  | cat {r r' : Regex} {s s' : List Char} :
      RMatches r s → RMatches r' s' → RMatches (.cat r r') (s ++ s')
  | starNil {r : Regex} : RMatches (.star r) []
  | starCons {r : Regex} {s s' : List Char} :
      RMatches r s → RMatches (.star r) s' → RMatches (.star r) (s ++ s')

/-- Does the regex accept the empty string? -/
def nullable : Regex → Bool
  | .emp => false
  | .eps => true
  | .char _ => false
  | .any => false
  | .alt r s => nullable r || nullable s
  | .cat r s => nullable r && nullable s
  | .star _ => true

/-- Brzozowski derivative with respect to one character. -/
def rderiv (r : Regex) (c : Char) : Regex :=
  match r with
  | .emp => .emp
  | .eps => .emp
  | .char d => if c = d then .eps else .emp
  | .any => if c = '\n' then .emp else .eps
  | .alt r s => .alt (rderiv r c) (rderiv s c)
  | .cat r s =>
      if nullable r then .alt (.cat (rderiv r c) s) (rderiv s c)
      else .cat (rderiv r c) s
  | .star r => .cat (rderiv r c) (.star r)

/-- `matchHere r s` decides whether some (possibly empty) prefix of `s` is in
the language of `r`; this is exactly the boolean value of Python's
`bool(re.match(r, s))` (anchored at position 0, the whole string need not
match). -/
def matchHere : Regex → List Char → Bool
  | r, [] => nullable r
  | r, c :: cs => nullable r || matchHere (rderiv r c) cs

/-- `bool(re.match(pattern, s))` on a Lean `String`. -/
def reMatch (r : Regex) (s : String) : Bool :=
  matchHere r s.data

/-- The prefix-matching semantics `reMatch` is proved to implement:
some prefix of `s` lies in the language of `r`. -/
def reMatchSpec (r : Regex) (s : String) : Prop :=
  ∃ p q, s.data = p ++ q ∧ RMatches r p

/-- A literal string as a regex (concatenation of its characters). -/
def litStr (s : String) : Regex :=
  s.data.foldr (fun c acc => Regex.cat (Regex.char c) acc) Regex.eps

/-- Alternation of a list of regexes, as produced by `(a|b|...|z)`. -/
def altOf : List Regex → Regex
  | [] => Regex.emp
  | [r] => r
  | r :: rs => Regex.alt r (altOf rs)

/-- `default_include = '.*'` (`make_Makemodule.py:47`). -/
def default_include : Regex := Regex.star Regex.any

/-- `default_exclude = '.*\.(dirstamp|gitignore|am|hide|old|orig|lo|Plo|o)'`
(`make_Makemodule.py:48`). -/
def default_exclude : Regex :=
  Regex.cat (Regex.star Regex.any)
    (Regex.cat (Regex.char '.')
      (altOf [litStr "dirstamp", litStr "gitignore", litStr "am",
              litStr "hide", litStr "old", litStr "orig",
              litStr "lo", litStr "Plo", litStr "o"]))

/-! ### `find_files` (`make_Makemodule.py:73-83`) -/

/-- The per-file test of `find_files` (`make_Makemodule.py:78`):
`bool(re.match(include, f)) and not bool(re.match(exclude, f))`,
applied to the basename `f` reported by `os.walk`. -/
def fileMatch (incl excl : Regex) (f : String) : Bool :=
  reMatch incl f && !(reMatch excl f)

/-- `os.path.join(root, f)` for a nonempty `root` without a trailing
separator and a relative `f`, which is the shape of every call in the
script. -/
def pathJoin (root f : String) : String := root ++ "/" ++ f

/-- One `(root, dirs, files)` triple yielded by `os.walk`; only the
directory path and the file basenames are consumed by the script. -/
structure WalkEntry where
  dirpath : String
  files : List String
deriving DecidableEq, Repr

/-- `find_files(loc, include, exclude)` (`make_Makemodule.py:73-83`) given
the `os.walk` output: keep every basename passing `fileMatch`, joined to its
directory, in traversal order. -/
def find_files (walk : List WalkEntry) (incl excl : Regex) : List String :=
  walk.flatMap (fun e => (e.files.filter (fileMatch incl excl)).map (pathJoin e.dirpath))

/-- Is `dirpath` equal to `root` or strictly below it? -/
def underRoot (root dirpath : String) : Bool :=
  dirpath = root || List.isPrefixOf (root ++ "/").data dirpath.data

/-- Model of Python `os.walk(root)` over a filesystem snapshot `fs` listing
every existing directory (in traversal order) with its files: the entries
at or below `root`.  With the default `onerror=None`, `os.walk` ignores the
`OSError` raised when listing a directory fails, so a `root` that does not
exist contributes no entries at all — it does not raise. -/
def osWalk (fs : List WalkEntry) (root : String) : List WalkEntry :=
  fs.filter (fun e => underRoot root e.dirpath)

/-! ### Strings and library lists (`make_Makemodule.py:43-62`) -/

/-- `unittest_dir = join('tests', 'unit')` (`make_Makemodule.py:45`). -/
def unittest_dir : String := "tests/unit"

/-- `lib_casm` (`make_Makemodule.py:52`). -/
def lib_casm : List String := ["libcasm.la"]

/-- `boost_libs` (`make_Makemodule.py:54-58`). -/
def boost_libs : List String :=
  ["$(BOOST_SYSTEM_LIB)", "$(BOOST_FILESYSTEM_LIB)", "$(BOOST_PROGRAM_OPTIONS_LIB)",
   "$(BOOST_REGEX_LIB)", "$(BOOST_CHRONO_LIB)"]

/-- `boost_test_libs` (`make_Makemodule.py:60`). -/
def boost_test_libs : List String := ["$(BOOST_UNIT_TEST_FRAMEWORK_LIB)"]

/-- `lib_casm_testing` (`make_Makemodule.py:62`). -/
def lib_casm_testing : List String := ["libcasmtesting.a"]

/-! ### `write_files` and the assignment writers (`make_Makemodule.py:85-117`)

Each writer is embedded as the string it writes to the file object `f`. -/

/-- `write_files(f, files)` (`make_Makemodule.py:85-99`): each file indented
by two spaces; every iteration with `index+1 == len(files)` (the last one)
is terminated by `'\n\n'`, every other one by `'\\\n'`. -/
def write_files : List String → String
  | [] => ""
  | [v] => "  " ++ v ++ "\n\n"
  | v :: w :: vs => "  " ++ v ++ "\\\n" ++ write_files (w :: vs)

/-- `append_option(f, name, option, objlist)` (`make_Makemodule.py:101-105`):
nothing when `len(objlist)` is falsy, else the `+=` header then the files. -/
def append_option (name option : String) (objlist : List String) : String :=
  if objlist.length ≠ 0 then name ++ "_" ++ option ++ " += \\\n" ++ write_files objlist
  else ""

/-- `append(f, var, objlist)` (`make_Makemodule.py:107-111`). -/
def append (var : String) (objlist : List String) : String :=
  if objlist.length ≠ 0 then var ++ " += \\\n" ++ write_files objlist
  else ""

/-- `write_option(f, name, option, objlist)` (`make_Makemodule.py:113-117`). -/
def write_option (name option : String) (objlist : List String) : String :=
  if objlist.length ≠ 0 then name ++ "_" ++ option ++ " = \\\n" ++ write_files objlist
  else ""

/-! ### Test discovery (`make_Makemodule.py:119-206`, `326-332`)

`glob(join(dir, '*<suffix>'))` is modelled over the list of basenames in
`dir` (in directory order, which `glob` preserves): a basename matches the
pattern `*<suffix>` iff it ends with `suffix` and — the `glob` rule for
hidden files — does not start with a dot; matches are returned joined to
the directory. -/

/-- Does basename `f` match the glob pattern `*<suffix>`? -/
def globMatch (suffix f : String) : Bool :=
  List.isSuffixOf suffix.data f.data && !(List.isPrefixOf ".".data f.data)

/-- The basenames of `dir` matching `*<suffix>`, in directory order. -/
def globSuffix (suffix : String) (listing : List String) : List String :=
  listing.filter (globMatch suffix)

/-- `glob(join(loc, '*<suffix>'))`: matching names joined to `loc`. -/
def glob_in (loc suffix : String) (listing : List String) : List String :=
  (globSuffix suffix listing).map (fun f => loc ++ "/" ++ f)

/-- `has_tests(dir)` (`make_Makemodule.py:119-121`):
`len(glob(join(dir, '*_test.cpp'))) > 0`, over the listing of `dir`. -/
def has_tests (listing : List String) : Bool :=
  (glob_in "" "_test.cpp" listing).length > 0

/-- The `extradist_ext` default `['*.hh', '*.cc', '*.json', '*.txt']` of
`testdir` (`make_Makemodule.py:151`), as the suffixes after `*`. -/
def extradist_ext : List String := [".hh", ".cc", ".json", ".txt"]

/-- `testdir(f, group)` (`make_Makemodule.py:151-194`): the text written for
one test group, given the listing of `tests/unit/<group>`.  The writes, in
order: `check_PROGRAMS`, `CXXFLAGS`, `SOURCES` (the fixed harness file
`tests/unit/unit_test.cpp` prepended to the `*_test.cpp` glob), `LDADD`,
`EXTRA_DIST` (if any extra-dist glob matched), and the `TESTS` entry. -/
def testdir (group : String) (listing : List String) : String :=
  let loc := unittest_dir ++ "/" ++ group
  append_option "check" "PROGRAMS" ["casm_unit_" ++ group]
  ++ write_option ("casm_unit_" ++ group) "CXXFLAGS"
      ["$(AM_CXXFLAGS)", "-I$(top_srcdir)/tests/unit/"]
  ++ write_option ("casm_unit_" ++ group) "SOURCES"
      (["tests/unit/unit_test.cpp"] ++ glob_in loc "_test.cpp" listing)
  ++ write_option ("casm_unit_" ++ group) "LDADD"
      (lib_casm ++ boost_libs ++ boost_test_libs ++ lib_casm_testing)
  ++ (let extradist_files :=
        extradist_ext.foldl (fun acc ext => acc ++ glob_in loc ext listing) []
      if extradist_files.length ≠ 0 then append "EXTRA_DIST" extradist_files else "")
  ++ append "TESTS" ["tests/unit/" ++ group ++ "/run_test_" ++ group]

/-- One entry of `os.listdir(unittest_dir)` (`make_Makemodule.py:326`),
with the result of `os.path.isdir` on it and, when a directory, its own
listing. -/
structure DirEnt where
  name : String
  isDir : Bool
  listing : List String
deriving DecidableEq, Repr

/-- The `testnames` accumulated by the loop at `make_Makemodule.py:326-332`:
the entries of the tests root that are directories and have tests, in
listing order. -/
def discoverTests (entries : List DirEnt) : List String :=
  (entries.filter (fun e => e.isDir && has_tests e.listing)).map (fun e => e.name)

/-- `run_test_in(group)` (`make_Makemodule.py:196-206`): the body written to
`tests/unit/<group>/run_test_<group>.in`. -/
def run_test_in (group : String) : String :=
  "#!/bin/bash\n"
  ++ ("GROUP=" ++ group ++ "\n")
  ++ "export PATH=@abs_top_builddir@:$PATH\n"
  ++ "cd @abs_top_srcdir@\n"
  ++ "mkdir -p @abs_top_srcdir@/tests/unit/test_projects\n"
  ++ ": $\x7bTEST_FLAGS:=\"--log_level=test_suite --catch_system_errors=no\"\x7d\n"
  ++ "@abs_top_builddir@/casm_unit_$GROUP $\x7bTEST_FLAGS\x7d\n"

/-! ### `includedir` naming (`make_Makemodule.py:140-149`)

The name derivation works on Python strings; it is embedded at the
character-list level so that `str.split` and `str.join` are literal
recursive definitions. -/

/-- Python `s.split(sep)` for a one-character separator: split at every
occurrence, keeping empty pieces (`''.split('/') == ['']`). -/
def splitOnChar (sep : Char) : List Char → List (List Char)
  | [] => [[]]
  | c :: cs =>
    if c = sep then [] :: splitOnChar sep cs
    else
      match splitOnChar sep cs with
      | [] => [[c]]
      | h :: t => (c :: h) :: t

/-- Python `sep.join(parts)` for a one-character separator. -/
def joinWith (sep : Char) : List (List Char) → List Char
  | [] => []
  | [x] => x
  | x :: y :: xs => x ++ sep :: joinWith sep (y :: xs)

/-- The `subpathname` of a directory (`make_Makemodule.py:143-147`, inside
`includedir`): `'_'.join(dir.split(os.sep)[1:] + ['include'])`, with
`os.sep = '/'`. -/
def subpathname (dir : String) : String :=
  ⟨joinWith '_' (((splitOnChar '/' dir.data).drop 1) ++ ["include".data])⟩

/-! ### `replace_lines` (`make_Makemodule.py:208-231`)

The read loop is a two-state machine over the lines `f.readline()` yields
(each line carries its trailing newline; the file is the finite list of
them).  State `false` is the outer `while` loop: a line whose `rstrip()`
equals the begin marker is kept, `lines_to_insert` is appended, and the
machine enters state `true`; any other line is kept.  State `true` is the
inner `while line.rstrip() != '# END MAKEMODULE'` loop: lines are read and
discarded until one whose `rstrip()` equals the end marker is found, which
is kept, returning to state `false`.  If the file ends while the machine is
in state `true`, Python's `f.readline()` returns `''` forever and
`''.rstrip()` never equals the end marker, so the inner loop never
terminates and the file is never rewritten: this divergence is embedded as
the result `none`.  On `some out`, the file is rewritten with exactly the
lines `out`. -/

/-- `'# BEGIN MAKEMODULE'` (`make_Makemodule.py:222`). -/
def beginMarker : String := "# BEGIN MAKEMODULE"

/-- `'# END MAKEMODULE'` (`make_Makemodule.py:225`). -/
def endMarker : String := "# END MAKEMODULE"

/-- The state machine of the `replace_lines` read loop; see the section
comment above. -/
def rlAux (ins : List String) : Bool → List String → Option (List String)
  | false, [] => some []
  | true, [] => none
  | false, l :: rest =>
    if rstrip l = beginMarker then
      (rlAux ins true rest).map (fun t => l :: (ins ++ t))
    else
      (rlAux ins false rest).map (fun t => l :: t)
  | true, l :: rest =>
    if rstrip l = endMarker then
      (rlAux ins false rest).map (fun t => l :: t)
    else
      rlAux ins true rest

/-- `replace_lines(filename, lines_to_insert)` (`make_Makemodule.py:208-231`)
on the list of lines of the file: `some out` means the file is rewritten
with the lines `out`; `none` means the read loop never terminates (and the
file is not touched). -/
def replace_lines (lines_to_insert : List String) (fileLines : List String) :
    Option (List String) :=
  rlAux lines_to_insert false fileLines

/-! ### Lines of a string

Used to state what the generated run-wrapper body consists of, and to
relate line lists to byte contents. -/

/-- Split a character list into lines, each keeping its terminating
newline; a final segment without a newline is kept as-is.  This is the
list of (nonempty) results of Python `f.readline()` on a file holding
exactly these characters. -/
def linesOf : List Char → List (List Char)
  | [] => []
  | c :: cs =>
    if c = '\n' then ['\n'] :: linesOf cs
    else
      match linesOf cs with
      | [] => [[c]]
      | h :: t => (c :: h) :: t

/-! ## Correctness of the derivative matcher -/

theorem RMatches_cat_inv {r s : Regex} {t : List Char} (h : RMatches (.cat r s) t) :
    ∃ u v, t = u ++ v ∧ RMatches r u ∧ RMatches s v := by
  cases h with
  | cat h1 h2 => exact ⟨_, _, rfl, h1, h2⟩

theorem RMatches_star_inv {r : Regex} {t : List Char} (h : RMatches (.star r) t) :
    t = [] ∨ ∃ u v, t = u ++ v ∧ RMatches r u ∧ RMatches (.star r) v := by
  cases h with
  | starNil => exact Or.inl rfl
  | starCons h1 h2 => exact Or.inr ⟨_, _, rfl, h1, h2⟩

theorem nullable_iff (r : Regex) : nullable r = true ↔ RMatches r [] := by
  induction r with
  | emp => simp only [nullable]; exact ⟨by simp, fun h => by cases h⟩
  | eps => simp only [nullable]; exact ⟨fun _ => .eps, fun _ => trivial⟩
  | char c => simp only [nullable]; exact ⟨by simp, fun h => by cases h⟩
  | any => simp only [nullable]; exact ⟨by simp, fun h => by cases h⟩
  | alt r s ihr ihs =>
    simp only [nullable, Bool.or_eq_true, ihr, ihs]
    constructor
    · rintro (h | h)
      · exact .altL h
      · exact .altR h
    · intro h
      cases h with
      | altL h => exact Or.inl h
      | altR h => exact Or.inr h
  | cat r s ihr ihs =>
    simp only [nullable, Bool.and_eq_true, ihr, ihs]
    constructor
    · rintro ⟨h1, h2⟩
      exact RMatches.cat h1 h2
    · intro h
      obtain ⟨u, v, huv, h1, h2⟩ := RMatches_cat_inv h
      obtain ⟨hu, hv⟩ := List.append_eq_nil.mp huv.symm
      subst hu; subst hv
      exact ⟨h1, h2⟩
  | star r ihr =>
    simp only [nullable]
    exact ⟨fun _ => .starNil, fun _ => trivial⟩

theorem rderiv_sound {r : Regex} {c : Char} {s : List Char}
    (h : RMatches (rderiv r c) s) : RMatches r (c :: s) := by
  induction r generalizing s with
  | emp => cases h
  | eps => cases h
  | char d =>
    simp only [rderiv] at h
    by_cases hc : c = d
    · rw [if_pos hc] at h
      cases h
      subst hc
      exact .char c
    · rw [if_neg hc] at h
      cases h
  | any =>
    simp only [rderiv] at h
    by_cases hc : c = '\n'
    · rw [if_pos hc] at h
      cases h
    · rw [if_neg hc] at h
      cases h
      exact .any c hc
  | alt r r' ihr ihr' =>
    cases h with
    | altL h => exact .altL (ihr h)
    | altR h => exact .altR (ihr' h)
  | cat r r' ihr ihr' =>
    simp only [rderiv] at h
    by_cases hn : nullable r
    · rw [if_pos hn] at h
      cases h with
      | altL h =>
        obtain ⟨u, v, huv, h1, h2⟩ := RMatches_cat_inv h
        subst huv
        exact (List.cons_append c u v) ▸ RMatches.cat (ihr h1) h2
      | altR h =>
        have h0 : RMatches r [] := (nullable_iff r).mp hn
        exact (List.nil_append (c :: s)) ▸ RMatches.cat h0 (ihr' h)
    · rw [if_neg hn] at h
      obtain ⟨u, v, huv, h1, h2⟩ := RMatches_cat_inv h
      subst huv
      exact (List.cons_append c u v) ▸ RMatches.cat (ihr h1) h2
  | star r ihr =>
    simp only [rderiv] at h
    obtain ⟨u, v, huv, h1, h2⟩ := RMatches_cat_inv h
    subst huv
    exact (List.cons_append c u v) ▸ RMatches.starCons (ihr h1) h2

theorem rderiv_complete {r : Regex} {t : List Char} (h : RMatches r t) :
    ∀ c s, t = c :: s → RMatches (rderiv r c) s := by
  induction h with
  | eps => intro c s hcs; cases hcs
  | char d =>
    intro c s hcs
    obtain ⟨hc, hs⟩ := List.cons.inj hcs
    subst hc; subst hs
    simp only [rderiv, if_pos rfl]
    exact .eps
  | any d hne =>
    intro c s hcs
    obtain ⟨hc, hs⟩ := List.cons.inj hcs
    subst hc; subst hs
    simp only [rderiv, if_neg hne]
    exact .eps
  | altL h ih =>
    intro c s hcs
    exact .altL (ih c s hcs)
  | altR h ih =>
    intro c s hcs
    exact .altR (ih c s hcs)
  | cat h1 h2 ih1 ih2 =>
    rename_i r r' s1 s2
    intro c s hcs
    simp only [rderiv]
    cases s1 with
    | nil =>
      have hn : nullable r = true := (nullable_iff r).mpr h1
      rw [if_pos hn]
      exact .altR (ih2 c s (by simpa using hcs))
    | cons c1 s1' =>
      obtain ⟨hc, hs⟩ := List.cons.inj (by simpa using hcs)
      cases hc
      have hd : RMatches (.cat (rderiv r c) r') (s1' ++ s2) :=
        RMatches.cat (ih1 c s1' rfl) h2
      by_cases hn : nullable r
      · rw [if_pos hn]
        exact hs ▸ RMatches.altL hd
      · rw [if_neg hn]
        exact hs ▸ hd
  | starNil => intro c s hcs; cases hcs
  | starCons h1 h2 ih1 ih2 =>
    rename_i r s1 s2
    intro c s hcs
    cases s1 with
    | nil => exact ih2 c s (by simpa using hcs)
    | cons c1 s1' =>
      obtain ⟨hc, hs⟩ := List.cons.inj (by simpa using hcs)
      cases hc
      simp only [rderiv]
      exact hs ▸ RMatches.cat (ih1 c s1' rfl) h2

theorem matchHere_iff (l : List Char) (r : Regex) :
    matchHere r l = true ↔ ∃ p q, l = p ++ q ∧ RMatches r p := by
  induction l generalizing r with
  | nil =>
    simp only [matchHere]
    constructor
    · intro h
      exact ⟨[], [], rfl, (nullable_iff r).mp h⟩
    · rintro ⟨p, q, hpq, hm⟩
      obtain ⟨hp, hq⟩ := List.append_eq_nil.mp hpq.symm
      subst hp
      exact (nullable_iff r).mpr hm
  | cons c cs ih =>
    simp only [matchHere, Bool.or_eq_true]
    constructor
    · rintro (h | h)
      · exact ⟨[], c :: cs, rfl, (nullable_iff r).mp h⟩
      · obtain ⟨p, q, hpq, hm⟩ := (ih (rderiv r c)).mp h
        exact ⟨c :: p, q, by simp [hpq], rderiv_sound hm⟩
    · rintro ⟨p, q, hpq, hm⟩
      cases p with
      | nil => exact Or.inl ((nullable_iff r).mpr hm)
      | cons c1 p' =>
        obtain ⟨hc, hs⟩ := List.cons.inj (by simpa using hpq)
        cases hc
        exact Or.inr ((ih (rderiv r c)).mpr ⟨p', q, hs, rderiv_complete hm c p' rfl⟩)

/-- `reMatch` implements the anchored-prefix matching semantics: it is true
iff some prefix of the string is in the language of the pattern. -/
theorem reMatch_iff (r : Regex) (s : String) :
    reMatch r s = true ↔ reMatchSpec r s := by
  simpa [reMatch, reMatchSpec] using matchHere_iff s.data r

/-! ## Properties of the `replace_lines` state machine -/

theorem rlAux_false_nil (ins : List String) : rlAux ins false [] = some [] := rfl

theorem rlAux_true_nil (ins : List String) : rlAux ins true [] = none := rfl

theorem rlAux_false_cons_begin (ins : List String) {l : String} (rest : List String)
    (h : rstrip l = beginMarker) :
    rlAux ins false (l :: rest) = (rlAux ins true rest).map (fun t => l :: (ins ++ t)) := by
  simp [rlAux, h]

theorem rlAux_false_cons_other (ins : List String) {l : String} (rest : List String)
    (h : rstrip l ≠ beginMarker) :
    rlAux ins false (l :: rest) = (rlAux ins false rest).map (fun t => l :: t) := by
  simp [rlAux, h]

theorem rlAux_true_cons_end (ins : List String) {l : String} (rest : List String)
    (h : rstrip l = endMarker) :
    rlAux ins true (l :: rest) = (rlAux ins false rest).map (fun t => l :: t) := by
  simp [rlAux, h]

theorem rlAux_true_cons_other (ins : List String) {l : String} (rest : List String)
    (h : rstrip l ≠ endMarker) :
    rlAux ins true (l :: rest) = rlAux ins true rest := by
  simp [rlAux, h]

/-- Lines before the first begin marker are copied verbatim. -/
theorem rlAux_copy (ins : List String) (pre rest : List String)
    (h : ∀ l ∈ pre, rstrip l ≠ beginMarker) :
    rlAux ins false (pre ++ rest) = (rlAux ins false rest).map (fun t => pre ++ t) := by
  induction pre with
  | nil => simp
  | cons l pre' ih =>
    have hl : rstrip l ≠ beginMarker := h l (by simp)
    rw [List.cons_append, rlAux_false_cons_other ins _ hl,
      ih (fun x hx => h x (by simp [hx]))]
    cases rlAux ins false rest <;> simp

/-- Lines strictly inside the managed region are discarded. -/
theorem rlAux_skip (ins : List String) (mid rest : List String)
    (h : ∀ l ∈ mid, rstrip l ≠ endMarker) :
    rlAux ins true (mid ++ rest) = rlAux ins true rest := by
  induction mid with
  | nil => simp
  | cons l mid' ih =>
    have hl : rstrip l ≠ endMarker := h l (by simp)
    rw [List.cons_append, rlAux_true_cons_other ins _ hl,
      ih (fun x hx => h x (by simp [hx]))]

/-- A file (suffix) with no begin-marker line passes through unchanged. -/
theorem rlAux_id (ins : List String) (post : List String)
    (h : ∀ l ∈ post, rstrip l ≠ beginMarker) :
    rlAux ins false post = some post := by
  induction post with
  | nil => rfl
  | cons l post' ih =>
    rw [rlAux_false_cons_other ins _ (h l (by simp)),
      ih (fun x hx => h x (by simp [hx]))]
    rfl

/-- In the in-region state, a remainder with no end-marker line makes the
machine read to end of file and diverge (`none`). -/
theorem rlAux_none (ins : List String) (rest : List String)
    (h : ∀ l ∈ rest, rstrip l ≠ endMarker) :
    rlAux ins true rest = none := by
  induction rest with
  | nil => rfl
  | cons l rest' ih =>
    rw [rlAux_true_cons_other ins _ (h l (by simp)),
      ih (fun x hx => h x (by simp [hx]))]

/-- The one-region unfolding of `replace_lines`: with no begin marker before
`b` and no end marker strictly between `b` and `e`, the prefix and `b` are
kept, the old region is dropped in favour of `ins`, `e` is kept, and the
machine continues on `post`. -/
theorem replace_lines_split (ins pre mid post : List String) (b e : String)
    (hpre : ∀ l ∈ pre, rstrip l ≠ beginMarker)
    (hb : rstrip b = beginMarker)
    (hmid : ∀ l ∈ mid, rstrip l ≠ endMarker)
    (he : rstrip e = endMarker) :
    replace_lines ins (pre ++ b :: (mid ++ e :: post)) =
      (rlAux ins false post).map (fun t => pre ++ b :: (ins ++ e :: t)) := by
  rw [replace_lines, rlAux_copy ins pre _ hpre, rlAux_false_cons_begin ins _ hb,
    rlAux_skip ins mid _ hmid, rlAux_true_cons_end ins _ he]
  cases rlAux ins false post <;> simp

/-- From any state, once a begin-marker line is reached whose following
lines contain no end marker, the machine ends in the diverging read loop. -/
theorem rlAux_stuck (ins : List String) (rest : List String) (b : String)
    (hb : rstrip b = beginMarker)
    (hrest : ∀ l ∈ rest, rstrip l ≠ endMarker) :
    ∀ (pre : List String) (st : Bool), rlAux ins st (pre ++ b :: rest) = none := by
  have hbe : rstrip b ≠ endMarker := by
    rw [hb]
    intro h
    exact absurd h (by decide)
  intro pre
  induction pre with
  | nil =>
    intro st
    cases st with
    | false =>
      rw [List.nil_append, rlAux_false_cons_begin ins _ hb, rlAux_none ins rest hrest]
      rfl
    | true =>
      rw [List.nil_append, rlAux_true_cons_other ins _ hbe, rlAux_none ins rest hrest]
  | cons l pre' ih =>
    intro st
    cases st with
    | false =>
      by_cases hl : rstrip l = beginMarker
      · rw [List.cons_append, rlAux_false_cons_begin ins _ hl, ih true]
        rfl
      · rw [List.cons_append, rlAux_false_cons_other ins _ hl, ih false]
        rfl
    | true =>
      by_cases hl : rstrip l = endMarker
      · rw [List.cons_append, rlAux_true_cons_end ins _ hl, ih false]
        rfl
      · rw [List.cons_append, rlAux_true_cons_other ins _ hl, ih true]

/-- The byte content the rewrite loop at `make_Makemodule.py:229-231` puts
in the file: each kept line written verbatim, concatenated. -/
def fileBytes (lines : List String) : String := String.join lines

theorem fileBytes_append (l1 l2 : List String) :
    fileBytes (l1 ++ l2) = fileBytes l1 ++ fileBytes l2 := by
  apply String.ext
  simp [fileBytes, String.join_eq]

theorem fileBytes_cons (l : String) (ls : List String) :
    fileBytes (l :: ls) = l ++ fileBytes ls := by
  apply String.ext
  simp [fileBytes, String.join_eq]

/-! ## Claim C2 -/

/-- C2: for every host file containing exactly one begin-marker line `b` and
one later end-marker line `e` (no line of `pre`, `mid` or `post` is a
marker line after trailing-whitespace trim), `replace_lines` keeps all
lines strictly outside the marker pair — including the two marker lines —
byte-for-byte, and replaces everything strictly between them with exactly
the inserted lines `ins`, in order; the rewritten byte content is the
concatenation of the preserved prefix, the begin line, the new lines, the
end line and the preserved suffix. -/
theorem C2_region_preservation (ins pre mid post : List String) (b e : String)
    (houtside : ∀ l, l ∈ pre ∨ l ∈ mid ∨ l ∈ post →
      rstrip l ≠ beginMarker ∧ rstrip l ≠ endMarker)
    (hb : rstrip b = beginMarker)
    (he : rstrip e = endMarker) :
    replace_lines ins (pre ++ b :: (mid ++ e :: post)) =
      some (pre ++ b :: (ins ++ e :: post)) ∧
    fileBytes (pre ++ b :: (ins ++ e :: post)) =
      fileBytes pre ++ b ++ fileBytes ins ++ e ++ fileBytes post := by
  constructor
  · rw [replace_lines_split ins pre mid post b e
      (fun l hl => (houtside l (Or.inl hl)).1) hb
      (fun l hl => (houtside l (Or.inr (Or.inl hl))).2) he,
      rlAux_id ins post (fun l hl => (houtside l (Or.inr (Or.inr hl))).1)]
    rfl
  · rw [fileBytes_append, fileBytes_cons, fileBytes_append, fileBytes_cons]
    simp [String.append_assoc]

/-- C2 witness: a concrete host file with one comment line before and after
the marker pair, and one stale line inside it, spliced with two fresh
lines. -/
theorem C2_witness :
    replace_lines ["include $(srcdir)/a.frag\n", "include $(srcdir)/b.frag\n"]
      ["# hand-written\n", "# BEGIN MAKEMODULE\n", "stale\n",
       "# END MAKEMODULE\n", "# tail\n"] =
      some ["# hand-written\n", "# BEGIN MAKEMODULE\n",
            "include $(srcdir)/a.frag\n", "include $(srcdir)/b.frag\n",
            "# END MAKEMODULE\n", "# tail\n"] :=
  (C2_region_preservation
    ["include $(srcdir)/a.frag\n", "include $(srcdir)/b.frag\n"]
    ["# hand-written\n"] ["stale\n"] ["# tail\n"]
    "# BEGIN MAKEMODULE\n" "# END MAKEMODULE\n"
    (by
    intro l hl
    rcases hl with h | h | h <;> simp only [List.mem_singleton] at h <;> subst h <;>
      exact ⟨by decide, by decide⟩) (by decide) (by decide)).1

/-! ## Claim C1 -/

/-- C1 counterexample: `replace_lines` is NOT idempotent for every list of
lines to insert.  Inserting the single line `'# END MAKEMODULE\n'` into a
well-formed host file gives a three-line file; splicing that result again
with the same insertion list gives a four-line file, because the inserted
line itself is taken for the end marker on the second pass. -/
theorem C1_counterexample :
    replace_lines ["# END MAKEMODULE\n"]
      ["# BEGIN MAKEMODULE\n", "old\n", "# END MAKEMODULE\n"] =
      some ["# BEGIN MAKEMODULE\n", "# END MAKEMODULE\n", "# END MAKEMODULE\n"] ∧
    replace_lines ["# END MAKEMODULE\n"]
      ["# BEGIN MAKEMODULE\n", "# END MAKEMODULE\n", "# END MAKEMODULE\n"] ≠
      some ["# BEGIN MAKEMODULE\n", "# END MAKEMODULE\n", "# END MAKEMODULE\n"] := by
  constructor
  · decide
  · decide

/-- C1 (amended): for every host file with a well-formed marker pair and
every list of lines to insert NONE OF WHICH trims to the end marker,
splicing is idempotent: the first run produces
`pre ++ b :: (ins ++ e :: post)` and a second run with the same insertion
list reproduces it unchanged (hence byte-identical managed regions on the
second run). -/
theorem C1_idempotent_amended (ins pre mid post : List String) (b e : String)
    (houtside : ∀ l, l ∈ pre ∨ l ∈ mid ∨ l ∈ post →
      rstrip l ≠ beginMarker ∧ rstrip l ≠ endMarker)
    (hb : rstrip b = beginMarker)
    (he : rstrip e = endMarker)
    (hins : ∀ l ∈ ins, rstrip l ≠ endMarker) :
    replace_lines ins (pre ++ b :: (mid ++ e :: post)) =
      some (pre ++ b :: (ins ++ e :: post)) ∧
    replace_lines ins (pre ++ b :: (ins ++ e :: post)) =
      some (pre ++ b :: (ins ++ e :: post)) := by
  have hpre : ∀ l ∈ pre, rstrip l ≠ beginMarker :=
    fun l hl => (houtside l (Or.inl hl)).1
  have hpost : ∀ l ∈ post, rstrip l ≠ beginMarker :=
    fun l hl => (houtside l (Or.inr (Or.inr hl))).1
  constructor
  · rw [replace_lines_split ins pre mid post b e hpre hb
      (fun l hl => (houtside l (Or.inr (Or.inl hl))).2) he,
      rlAux_id ins post hpost]
    rfl
  · rw [replace_lines_split ins pre ins post b e hpre hb hins he,
      rlAux_id ins post hpost]
    rfl

/-- C1 witness: idempotence at a concrete well-formed host file and a
concrete inclusion-line insertion list. -/
theorem C1_witness :
    replace_lines ["include $(srcdir)/x.frag\n"]
      ["head\n", "# BEGIN MAKEMODULE\n", "stale\n", "# END MAKEMODULE\n", "tail\n"] =
      some ["head\n", "# BEGIN MAKEMODULE\n", "include $(srcdir)/x.frag\n",
            "# END MAKEMODULE\n", "tail\n"] ∧
    replace_lines ["include $(srcdir)/x.frag\n"]
      ["head\n", "# BEGIN MAKEMODULE\n", "include $(srcdir)/x.frag\n",
       "# END MAKEMODULE\n", "tail\n"] =
      some ["head\n", "# BEGIN MAKEMODULE\n", "include $(srcdir)/x.frag\n",
            "# END MAKEMODULE\n", "tail\n"] :=
  C1_idempotent_amended ["include $(srcdir)/x.frag\n"]
    ["head\n"] ["stale\n"] ["tail\n"] "# BEGIN MAKEMODULE\n" "# END MAKEMODULE\n"
    (by
    intro l hl
    rcases hl with h | h | h <;> simp only [List.mem_singleton] at h <;> subst h <;>
      exact ⟨by decide, by decide⟩) (by decide) (by decide) (by decide)

/-! ## Claim C10 -/

/-- C10: for every host-file content containing a line that trims to the
begin marker with no subsequent line trimming to the end marker,
`replace_lines` does not terminate: once the begin line is reached, the
inner skip loop keeps calling `readline()` past end of file (which returns
`''` forever, and `''.rstrip()` never equals the end marker), so the loop
never exits and the host file is never rewritten.  In this embedding that
divergence — and the absence of any rewrite — is the result `none`. -/
theorem C10_missing_end_diverges (ins pre rest : List String) (b : String)
    (hb : rstrip b = beginMarker)
    (hrest : ∀ l ∈ rest, rstrip l ≠ endMarker) :
    replace_lines ins (pre ++ b :: rest) = none :=
  rlAux_stuck ins rest b hb hrest pre false

/-- C10 witness: a concrete file whose begin marker is never followed by an
end marker. -/
theorem C10_witness :
    replace_lines ["x\n"] ["a\n", "# BEGIN MAKEMODULE\n", "y\n"] = none :=
  C10_missing_end_diverges ["x\n"] ["a\n"] ["y\n"] "# BEGIN MAKEMODULE\n"
    (by decide) (by decide)

/-! ## Claim C5 -/

/-- C5 counterexample: a malformed host file does NOT make `replace_lines`
fail.  A file with no marker pair at all is silently rewritten with its
own content (the write loop runs and writes every line back), and a file
with the marker pair duplicated has both regions silently replaced — in
neither case is any error raised. -/
theorem C5_counterexample :
    replace_lines ["x\n"] ["a\n", "b\n"] = some ["a\n", "b\n"] ∧
    replace_lines ["x\n"]
      ["# BEGIN MAKEMODULE\n", "a\n", "# END MAKEMODULE\n", "mid\n",
       "# BEGIN MAKEMODULE\n", "b\n", "# END MAKEMODULE\n"] =
      some ["# BEGIN MAKEMODULE\n", "x\n", "# END MAKEMODULE\n", "mid\n",
            "# BEGIN MAKEMODULE\n", "x\n", "# END MAKEMODULE\n"] := by
  constructor
  · decide
  · decide

/-- C5 (amended): `replace_lines` performs no validation of the marker
pair.  A host file with no line trimming to the begin marker is rewritten
with its content unchanged (a silent no-op, not an error); a host file
with the marker pair duplicated has every region silently replaced with
the inserted lines; and only a begin marker with no subsequent end marker
is fatal, by non-termination (the file is then never rewritten), not by a
raised error. -/
theorem C5_amended (ins F pre mid1 sep mid2 post : List String) (b1 e1 b2 e2 : String)
    (hF : ∀ l ∈ F, rstrip l ≠ beginMarker)
    (hpre : ∀ l ∈ pre, rstrip l ≠ beginMarker)
    (hmid1 : ∀ l ∈ mid1, rstrip l ≠ endMarker)
    (hsep : ∀ l ∈ sep, rstrip l ≠ beginMarker)
    (hmid2 : ∀ l ∈ mid2, rstrip l ≠ endMarker)
    (hpost : ∀ l ∈ post, rstrip l ≠ beginMarker)
    (hb1 : rstrip b1 = beginMarker) (he1 : rstrip e1 = endMarker)
    (hb2 : rstrip b2 = beginMarker) (he2 : rstrip e2 = endMarker) :
    replace_lines ins F = some F ∧
    replace_lines ins (pre ++ b1 :: (mid1 ++ e1 :: (sep ++ b2 :: (mid2 ++ e2 :: post)))) =
      some (pre ++ b1 :: (ins ++ e1 :: (sep ++ b2 :: (ins ++ e2 :: post)))) := by
  constructor
  · exact rlAux_id ins F hF
  · rw [replace_lines_split ins pre mid1 _ b1 e1 hpre hb1 hmid1 he1]
    have h2 : rlAux ins false (sep ++ b2 :: (mid2 ++ e2 :: post)) =
        some (sep ++ b2 :: (ins ++ e2 :: post)) := by
      rw [rlAux_copy ins sep _ hsep, rlAux_false_cons_begin ins _ hb2,
        rlAux_skip ins mid2 _ hmid2, rlAux_true_cons_end ins _ he2,
        rlAux_id ins post hpost]
      rfl
    rw [h2]
    rfl

/-- C5 witness: the amended behaviour at a concrete marker-free file and a
concrete file with a duplicated marker pair. -/
theorem C5_witness :
    replace_lines ["x\n"] ["a\n", "b\n"] = some ["a\n", "b\n"] ∧
    replace_lines ["x\n"]
      ["h\n", "# BEGIN MAKEMODULE\n", "a\n", "# END MAKEMODULE\n", "m\n",
       "# BEGIN MAKEMODULE\n", "b\n", "# END MAKEMODULE\n"] =
      some ["h\n", "# BEGIN MAKEMODULE\n", "x\n", "# END MAKEMODULE\n", "m\n",
            "# BEGIN MAKEMODULE\n", "x\n", "# END MAKEMODULE\n"] :=
  C5_amended ["x\n"] ["a\n", "b\n"] ["h\n"] ["a\n"] ["m\n"] ["b\n"] []
    "# BEGIN MAKEMODULE\n" "# END MAKEMODULE\n"
    "# BEGIN MAKEMODULE\n" "# END MAKEMODULE\n"
    (by decide) (by decide) (by decide) (by decide) (by decide) (by decide)
    (by decide) (by decide) (by decide) (by decide)

/-! ## Claim C3 -/

/-- C3: the per-file test of `find_files` accepts a basename iff the
include pattern matches some prefix of it at position 0 and the exclude
pattern matches no prefix of it at position 0 (anchored-prefix matching:
the whole string need not match); exclusion always wins when both match;
and consequently every path `find_files` returns under the default
patterns comes from a basename the default exclude pattern does not
match — a basename matching the default exclude pattern is never
included. -/
theorem C3_classifier (inc exc : Regex) (f : String) (walk : List WalkEntry)
    (p : String) :
    (fileMatch inc exc f = true ↔ (reMatchSpec inc f ∧ ¬ reMatchSpec exc f)) ∧
    (reMatch exc f = true → fileMatch inc exc f = false) ∧
    (p ∈ find_files walk inc exc ↔
      ∃ e ∈ walk, ∃ b ∈ e.files, fileMatch inc exc b = true ∧ p = pathJoin e.dirpath b) ∧
    (reMatch default_exclude f = true →
      fileMatch default_include default_exclude f = false) ∧
    (p ∈ find_files walk default_include default_exclude →
      ∃ e ∈ walk, ∃ b ∈ e.files, reMatch default_exclude b = false ∧
        p = pathJoin e.dirpath b) := by
  have hmem : ∀ (i x : Regex) (q : String), q ∈ find_files walk i x ↔
      ∃ e ∈ walk, ∃ b ∈ e.files, fileMatch i x b = true ∧ q = pathJoin e.dirpath b := by
    intro i x q
    simp only [find_files, List.mem_flatMap, List.mem_map, List.mem_filter]
    constructor
    · rintro ⟨e, he, b, ⟨hb, hm⟩, hp⟩
      exact ⟨e, he, b, hb, hm, hp.symm⟩
    · rintro ⟨e, he, b, hb, hm, hp⟩
      exact ⟨e, he, b, ⟨hb, hm⟩, hp.symm⟩
  refine ⟨?_, ?_, hmem inc exc p, ?_, ?_⟩
  · rw [fileMatch, Bool.and_eq_true, Bool.not_eq_true', ← reMatch_iff]
    constructor
    · rintro ⟨h1, h2⟩
      refine ⟨h1, ?_⟩
      rw [← reMatch_iff]
      simp [h2]
    · rintro ⟨h1, h2⟩
      rw [← reMatch_iff] at h2
      exact ⟨h1, by simpa using h2⟩
  · intro h
    simp [fileMatch, h]
  · intro h
    simp [fileMatch, h]
  · intro hp
    obtain ⟨e, he, b, hb, hm, hq⟩ := (hmem default_include default_exclude p).mp hp
    refine ⟨e, he, b, hb, ?_, hq⟩
    rw [fileMatch, Bool.and_eq_true, Bool.not_eq_true'] at hm
    exact hm.2

/-- C3 witness: the basenames `foo.o`, `bar.Plo` and `.gitignore` match the
default exclude pattern and are rejected by the classifier even though the
default include pattern matches them. -/
theorem C3_witness :
    reMatch default_exclude "foo.o" = true ∧
    fileMatch default_include default_exclude "foo.o" = false ∧
    fileMatch default_include default_exclude "bar.Plo" = false ∧
    fileMatch default_include default_exclude ".gitignore" = false :=
  ⟨by decide,
   (C3_classifier default_include default_exclude "foo.o" [] "").2.2.2.1 (by decide),
   (C3_classifier default_include default_exclude "bar.Plo" [] "").2.2.2.1 (by decide),
   (C3_classifier default_include default_exclude ".gitignore" [] "").2.2.2.1 (by decide)⟩

/-! ## Claim C4 -/

/-- C4 counterexample: for a root that does not exist in the filesystem
snapshot, `find_files` does NOT fail: `os.walk` (with its default
`onerror=None`) ignores the listing error and yields no entries, so
`find_files` returns normally with the empty list, and the caller goes on
to write a fragment with no file entries instead of aborting. -/
theorem C4_counterexample :
    osWalk [⟨"src", ["main.cpp"]⟩] "include/casm" = [] ∧
    find_files (osWalk [⟨"src", ["main.cpp"]⟩] "include/casm")
      default_include default_exclude = [] := by
  constructor
  · decide
  · decide

/-- C4 (amended): for every root with no directory at or below it in the
filesystem snapshot, the walk yields no entries and `find_files` returns
the empty list — a normal return, not a NotFound error; the run
continues. -/
theorem C4_missing_root (fs : List WalkEntry) (root : String) (inc exc : Regex)
    (habsent : ∀ e ∈ fs, underRoot root e.dirpath = false) :
    osWalk fs root = [] ∧ find_files (osWalk fs root) inc exc = [] := by
  have hw : osWalk fs root = [] := by
    rw [osWalk, List.filter_eq_nil_iff]
    intro e he
    simp [habsent e he]
  exact ⟨hw, by rw [hw]; rfl⟩

/-- C4 witness: the amended behaviour at a concrete snapshot without the
requested root. -/
theorem C4_witness :
    osWalk [⟨"src", ["main.cpp"]⟩] "include/ccasm" = [] ∧
    find_files (osWalk [⟨"src", ["main.cpp"]⟩] "include/ccasm")
      default_include default_exclude = [] :=
  C4_missing_root [⟨"src", ["main.cpp"]⟩] "include/ccasm"
    default_include default_exclude (by decide)

/-! ## Split/join lemmas for the `includedir` name derivation -/

theorem splitOnChar_ne_nil (sep : Char) (l : List Char) : splitOnChar sep l ≠ [] := by
  cases l with
  | nil => simp [splitOnChar]
  | cons c cs =>
    simp only [splitOnChar]
    by_cases hc : c = sep
    · simp [hc]
    · rw [if_neg hc]
      cases splitOnChar sep cs <;> simp

theorem joinWith_cons_cons (sep c : Char) (h : List Char) (t : List (List Char)) :
    joinWith sep ((c :: h) :: t) = c :: joinWith sep (h :: t) := by
  cases t <;> rfl

theorem joinWith_splitOnChar (sep : Char) (l : List Char) :
    joinWith sep (splitOnChar sep l) = l := by
  induction l with
  | nil => rfl
  | cons c cs ih =>
    simp only [splitOnChar]
    by_cases hc : c = sep
    · rw [if_pos hc]
      cases hr : splitOnChar sep cs with
      | nil => exact absurd hr (splitOnChar_ne_nil sep cs)
      | cons h t =>
        rw [hr] at ih
        simp only [joinWith, ← hc] at ih ⊢
        cases t <;> simp_all [joinWith]
    · rw [if_neg hc]
      cases hr : splitOnChar sep cs with
      | nil => exact absurd hr (splitOnChar_ne_nil sep cs)
      | cons h t =>
        rw [hr] at ih
        rw [joinWith_cons_cons, ih]

theorem append_sep_inj (sep : Char) :
    ∀ (a1 a2 t1 t2 : List Char), sep ∉ a1 → sep ∉ a2 →
      a1 ++ sep :: t1 = a2 ++ sep :: t2 → a1 = a2 ∧ t1 = t2 := by
  intro a1
  induction a1 with
  | nil =>
    intro a2 t1 t2 _ h2 heq
    cases a2 with
    | nil => simpa using heq
    | cons c a2' =>
      obtain ⟨hc, _⟩ := List.cons.inj (by simpa using heq)
      exact absurd (by simp [hc]) h2
  | cons c a1' ih =>
    intro a2 t1 t2 h1 h2 heq
    cases a2 with
    | nil =>
      obtain ⟨hc, _⟩ := List.cons.inj (by simpa using heq)
      exact absurd (by simp [hc]) h1
    | cons c2 a2' =>
      obtain ⟨hc, hrest⟩ := List.cons.inj (by simpa using heq)
      obtain ⟨ha, ht⟩ := ih a2' t1 t2 (fun hm => h1 (by simp [hm]))
        (fun hm => h2 (by simp [hm])) hrest
      exact ⟨by rw [hc, ha], ht⟩

theorem joinWith_inj (sep : Char) :
    ∀ (l1 l2 : List (List Char)), l1 ≠ [] → l2 ≠ [] →
      (∀ x ∈ l1, sep ∉ x) → (∀ x ∈ l2, sep ∉ x) →
      joinWith sep l1 = joinWith sep l2 → l1 = l2 := by
  intro l1
  induction l1 with
  | nil => intro l2 h; exact absurd rfl h
  | cons x rest ih =>
    intro l2 _ hl2 hfree1 hfree2 heq
    cases l2 with
    | nil => exact absurd rfl hl2
    | cons y rest2 =>
      cases rest with
      | nil =>
        cases rest2 with
        | nil => simpa [joinWith] using heq
        | cons y2 ys =>
          exfalso
          apply hfree1 x (by simp)
          simp only [joinWith] at heq
          rw [heq]
          simp
      | cons x2 xs =>
        cases rest2 with
        | nil =>
          exfalso
          apply hfree2 y (by simp)
          simp only [joinWith] at heq
          rw [← heq]
          simp
        | cons y2 ys =>
          simp only [joinWith] at heq
          obtain ⟨hxy, hj⟩ := append_sep_inj sep x y _ _
            (hfree1 x (by simp)) (hfree2 y (by simp)) heq
          have hrest : x2 :: xs = y2 :: ys :=
            ih (y2 :: ys) (by simp) (by simp)
              (fun z hz => hfree1 z (by simp [hz]))
              (fun z hz => hfree2 z (by simp [hz])) hj
          rw [hxy, hrest]

/-! ## Claim C6 -/

/-- C6 counterexample: the derived install-variable names are NOT distinct
for every pair of distinct directories under one include root: the
underscore used to join path segments collides with underscores inside
segment names, so `include/casm/a_b` and `include/casm/a/b` — two distinct
directory paths under `include` — derive the same `subpathname`
`casm_a_b_include`. -/
theorem C6_counterexample :
    ("include/casm/a_b" : String) ≠ "include/casm/a/b" ∧
    subpathname "include/casm/a_b" = subpathname "include/casm/a/b" := by
  constructor
  · decide
  · decide

/-- C6 (amended): for directories under the same include root (equal first
path segment) none of whose path segments contains an underscore, the name
derivation is injective: distinct directory paths derive distinct
install-variable names. -/
theorem C6_naming_injective_amended (d1 d2 : String)
    (hroot : (splitOnChar '/' d1.data).headD [] = (splitOnChar '/' d2.data).headD [])
    (h1 : ∀ seg ∈ splitOnChar '/' d1.data, '_' ∉ seg)
    (h2 : ∀ seg ∈ splitOnChar '/' d2.data, '_' ∉ seg)
    (hne : d1 ≠ d2) :
    subpathname d1 ≠ subpathname d2 := by
  intro heq
  apply hne
  have hj : joinWith '_' (((splitOnChar '/' d1.data).drop 1) ++ ["include".data]) =
      joinWith '_' (((splitOnChar '/' d2.data).drop 1) ++ ["include".data]) := by
    have := congrArg String.data heq
    simpa [subpathname] using this
  have hfree : ∀ (d : String), (∀ seg ∈ splitOnChar '/' d.data, '_' ∉ seg) →
      ∀ x ∈ ((splitOnChar '/' d.data).drop 1) ++ ["include".data], '_' ∉ x := by
    intro d hd x hx
    rcases List.mem_append.mp hx with hx' | hx'
    · exact hd x (List.mem_of_mem_drop hx')
    · simp only [List.mem_singleton] at hx'
      subst hx'
      decide
  have hlists := joinWith_inj '_' _ _ (by simp) (by simp)
    (hfree d1 h1) (hfree d2 h2) hj
  have hdrop : (splitOnChar '/' d1.data).drop 1 = (splitOnChar '/' d2.data).drop 1 :=
    List.append_cancel_right hlists
  have hsplit : splitOnChar '/' d1.data = splitOnChar '/' d2.data := by
    cases hs1 : splitOnChar '/' d1.data with
    | nil => exact absurd hs1 (splitOnChar_ne_nil '/' d1.data)
    | cons a t1 =>
      cases hs2 : splitOnChar '/' d2.data with
      | nil => exact absurd hs2 (splitOnChar_ne_nil '/' d2.data)
      | cons b t2 =>
        rw [hs1, hs2] at hroot hdrop
        simp only [List.headD_cons] at hroot
        simp only [List.drop_one, List.tail_cons] at hdrop
        rw [hroot, hdrop]
  apply String.ext
  rw [← joinWith_splitOnChar '/' d1.data, ← joinWith_splitOnChar '/' d2.data, hsplit]

/-- C6 witness: two concrete underscore-free directories under
`include` derive distinct names. -/
theorem C6_witness :
    subpathname "include/casm/app" ≠ subpathname "include/casm/clex" :=
  C6_naming_injective_amended "include/casm/app" "include/casm/clex"
    (by decide) (by decide) (by decide) (by decide)

/-! ## Claim C7 -/

/-- Shape of the `write_files` output for a nonempty list: every value but
the last on its own line ending in a continuation backslash, the last
followed by a blank line. -/
theorem write_files_render (v : String) (vs : List String) :
    write_files (v :: vs) =
      fileBytes (((v :: vs).dropLast).map (fun x => "  " ++ x ++ "\\\n")) ++
        ("  " ++ ((v :: vs).getLastD "") ++ "\n\n") := by
  induction vs generalizing v with
  | nil =>
    simp only [write_files, List.dropLast_single, List.map_nil, List.getLastD_cons]
    show "  " ++ v ++ "\n\n" = fileBytes [] ++ ("  " ++ v ++ "\n\n")
    simp [fileBytes, String.join]
  | cons w ws ih =>
    rw [write_files, ih w]
    have hdl : (v :: w :: ws).dropLast = v :: (w :: ws).dropLast := by simp
    have hgl : (v :: w :: ws).getLastD "" = (w :: ws).getLastD "" := by
      simp [List.getLastD]
    rw [hdl, hgl, List.map_cons, fileBytes_cons]
    simp [String.append_assoc]

/-- C7: each assignment writer writes nothing for an empty value list; for
a nonempty list it writes the header `<name><op> \` and then, via
`write_files`, one two-space-indented value per line in input order, every
line ending in a continuation backslash except the last value, which is
followed by a blank line. -/
theorem C7_assignment_writers (name option var v : String) (vs : List String) :
    write_option name option [] = "" ∧
    append_option name option [] = "" ∧
    append var [] = "" ∧
    write_option name option (v :: vs) =
      name ++ "_" ++ option ++ " = \\\n" ++ write_files (v :: vs) ∧
    append_option name option (v :: vs) =
      name ++ "_" ++ option ++ " += \\\n" ++ write_files (v :: vs) ∧
    append var (v :: vs) = var ++ " += \\\n" ++ write_files (v :: vs) ∧
    write_files (v :: vs) =
      fileBytes (((v :: vs).dropLast).map (fun x => "  " ++ x ++ "\\\n")) ++
        ("  " ++ ((v :: vs).getLastD "") ++ "\n\n") := by
  refine ⟨rfl, rfl, rfl, ?_, ?_, ?_, write_files_render v vs⟩
  · simp [write_option, String.append_assoc]
  · simp [append_option, String.append_assoc]
  · simp [append, String.append_assoc]

/-! ## Claim C8 -/

/-- C8: a subdirectory of the tests root is a test group iff its own
(non-recursive) listing contains at least one file matching `*_test.cpp`;
the discovered group names are exactly the directory names of qualifying
entries; and when a group directory's only `*_test.cpp` match is
`foo_test.cpp`, the emitted fragment has a SOURCES assignment listing
exactly the fixed shared harness file `tests/unit/unit_test.cpp` first,
followed by the group's `foo_test.cpp` — the listing used is only the
group directory's own, so nothing is picked up from subdirectories. -/
theorem C8_test_group_detection (group d : String) (listing : List String)
    (entries : List DirEnt) :
    (has_tests listing = true ↔ ∃ f ∈ listing, globMatch "_test.cpp" f = true) ∧
    (d ∈ discoverTests entries ↔
      ∃ e ∈ entries, e.isDir = true ∧ has_tests e.listing = true ∧ e.name = d) ∧
    (globSuffix "_test.cpp" listing = ["foo_test.cpp"] →
      testdir group listing =
        append_option "check" "PROGRAMS" ["casm_unit_" ++ group]
        ++ write_option ("casm_unit_" ++ group) "CXXFLAGS"
            ["$(AM_CXXFLAGS)", "-I$(top_srcdir)/tests/unit/"]
        ++ write_option ("casm_unit_" ++ group) "SOURCES"
            ["tests/unit/unit_test.cpp", "tests/unit/" ++ group ++ "/foo_test.cpp"]
        ++ write_option ("casm_unit_" ++ group) "LDADD"
            (lib_casm ++ boost_libs ++ boost_test_libs ++ lib_casm_testing)
        ++ (let extradist_files := extradist_ext.foldl
              (fun acc ext => acc ++ glob_in ("tests/unit/" ++ group) ext listing) []
            if extradist_files.length ≠ 0 then append "EXTRA_DIST" extradist_files
            else "")
        ++ append "TESTS" ["tests/unit/" ++ group ++ "/run_test_" ++ group]) := by
  refine ⟨?_, ?_, ?_⟩
  · simp only [has_tests, glob_in, globSuffix, List.length_map, gt_iff_lt,
      decide_eq_true_eq, List.length_pos_iff_exists_mem]
    constructor
    · rintro ⟨a, ha⟩
      obtain ⟨hmem, hp⟩ := List.mem_filter.mp ha
      exact ⟨a, hmem, hp⟩
    · rintro ⟨f, hf, hp⟩
      exact ⟨f, List.mem_filter.mpr ⟨hf, hp⟩⟩
  · rw [discoverTests]
    simp only [List.mem_map, List.mem_filter, Bool.and_eq_true]
    constructor
    · rintro ⟨e, ⟨he, hdir, ht⟩, hn⟩
      exact ⟨e, he, hdir, ht, hn⟩
    · rintro ⟨e, he, hdir, ht, hn⟩
      exact ⟨e, ⟨he, hdir, ht⟩, hn⟩
  · intro h
    rw [testdir]
    rw [show glob_in (unittest_dir ++ "/" ++ group) "_test.cpp" listing =
        [(unittest_dir ++ "/" ++ group) ++ "/" ++ "foo_test.cpp"] by
      rw [glob_in, h]; rfl]
    rw [show unittest_dir ++ "/" ++ group = "tests/unit/" ++ group from rfl]
    rw [show ("tests/unit/" ++ group) ++ "/" ++ "foo_test.cpp" =
        "tests/unit/" ++ group ++ "/foo_test.cpp" by
      simp [String.append_assoc]]
    rfl

/-- C8 witness: a concrete listing whose only `*_test.cpp` match is
`foo_test.cpp`, for the concrete group `sample`, together with a
single-entry tests root. -/
theorem C8_witness :
    (has_tests ["foo_test.cpp", "README.md"] = true ↔
      ∃ f ∈ ["foo_test.cpp", "README.md"], globMatch "_test.cpp" f = true) ∧
    ("sample" ∈ discoverTests [⟨"sample", true, ["foo_test.cpp", "README.md"]⟩] ↔
      ∃ e ∈ [(⟨"sample", true, ["foo_test.cpp", "README.md"]⟩ : DirEnt)],
        e.isDir = true ∧ has_tests e.listing = true ∧ e.name = "sample") ∧
    testdir "sample" ["foo_test.cpp", "README.md"] =
      append_option "check" "PROGRAMS" ["casm_unit_sample"]
      ++ write_option "casm_unit_sample" "CXXFLAGS"
          ["$(AM_CXXFLAGS)", "-I$(top_srcdir)/tests/unit/"]
      ++ write_option "casm_unit_sample" "SOURCES"
          ["tests/unit/unit_test.cpp", "tests/unit/sample/foo_test.cpp"]
      ++ write_option "casm_unit_sample" "LDADD"
          (lib_casm ++ boost_libs ++ boost_test_libs ++ lib_casm_testing)
      ++ (let extradist_files := extradist_ext.foldl
            (fun acc ext => acc ++ glob_in "tests/unit/sample" ext
              ["foo_test.cpp", "README.md"]) []
          if extradist_files.length ≠ 0 then append "EXTRA_DIST" extradist_files
          else "")
      ++ append "TESTS" ["tests/unit/sample/run_test_sample"] := by
  obtain ⟨h1, h2, h3⟩ := C8_test_group_detection "sample" "sample"
    ["foo_test.cpp", "README.md"] [⟨"sample", true, ["foo_test.cpp", "README.md"]⟩]
  exact ⟨h1, h2, h3 (by decide)⟩

/-! ## Claim C9 -/

/-- A newline-free chunk followed by a newline is one line of the split. -/
theorem linesOf_line (l : List Char) (rest : List Char) (h : '\n' ∉ l) :
    linesOf (l ++ '\n' :: rest) = (l ++ ['\n']) :: linesOf rest := by
  induction l with
  | nil => simp [linesOf]
  | cons c l' ih =>
    have hc : c ≠ '\n' := fun hc => h (by simp [hc])
    have ih' := ih (fun hm => h (by simp [hm]))
    show linesOf (c :: (l' ++ '\n' :: rest)) = ((c :: l') ++ ['\n']) :: linesOf rest
    simp only [linesOf, if_neg hc]
    rw [ih']
    rfl

set_option maxRecDepth 16384 in
/-- C9 counterexample: the body `run_test_in` writes consists of SEVEN
lines, not the six components the claim enumerates (the claim omits the
`mkdir -p` line creating the test-projects directory), and the `GROUP`
variable is plainly assigned, not exported: the second line is exactly
`GROUP=sample` and the substring `export GROUP` occurs nowhere in the
body. -/
theorem C9_counterexample :
    (linesOf (run_test_in "sample").data).length = 7 ∧
    (linesOf (run_test_in "sample").data)[1]? = some ("GROUP=sample\n").data ∧
    ¬ ("export GROUP".data <:+: (run_test_in "sample").data) := by
  refine ⟨by decide, by decide, by decide⟩

set_option maxRecDepth 16384 in
/-- C9 (amended): for every group name without a newline, the run-wrapper
body consists of exactly seven lines: the fixed shebang, a plain
(unexported) `GROUP=<group>` assignment, an exported `PATH` with the build
output directory prepended, a change of directory to the source root, a
`mkdir -p` for the test-projects directory, a default-valued `TEST_FLAGS`
variable, and one invocation of `casm_unit_$GROUP` with those flags. -/
theorem C9_run_wrapper_amended (group : String) (h : '\n' ∉ group.data) :
    linesOf (run_test_in group).data =
      ["#!/bin/bash\n".data,
       ("GROUP=" ++ group ++ "\n").data,
       "export PATH=@abs_top_builddir@:$PATH\n".data,
       "cd @abs_top_srcdir@\n".data,
       "mkdir -p @abs_top_srcdir@/tests/unit/test_projects\n".data,
       (": $\x7bTEST_FLAGS:=\"--log_level=test_suite --catch_system_errors=no\"\x7d\n").data,
       "@abs_top_builddir@/casm_unit_$GROUP $\x7bTEST_FLAGS\x7d\n".data] := by
  have hg : '\n' ∉ "GROUP=".data ++ group.data := by
    intro hm
    rcases List.mem_append.mp hm with h' | h'
    · revert h'
      decide
    · exact h h'
  have hbody : (run_test_in group).data =
      "#!/bin/bash".data ++ '\n' ::
        ("GROUP=".data ++ group.data ++ '\n' ::
          ("export PATH=@abs_top_builddir@:$PATH".data ++ '\n' ::
            ("cd @abs_top_srcdir@".data ++ '\n' ::
              ("mkdir -p @abs_top_srcdir@/tests/unit/test_projects".data ++ '\n' ::
                ((": $\x7bTEST_FLAGS:=\"--log_level=test_suite --catch_system_errors=no\"\x7d").data ++ '\n' ::
                  ("@abs_top_builddir@/casm_unit_$GROUP $\x7bTEST_FLAGS\x7d".data ++ '\n' ::
                    ([] : List Char))))))) := by
    simp [run_test_in, String.data_append, List.append_assoc]
  rw [hbody, linesOf_line _ _ (by decide), linesOf_line _ _ hg,
    linesOf_line _ _ (by decide), linesOf_line _ _ (by decide),
    linesOf_line _ _ (by decide), linesOf_line _ _ (by decide),
    linesOf_line _ _ (by decide)]
  simp [linesOf, String.data_append, List.append_assoc]

/-- C9 witness: the amended seven-line body at the concrete group
`sample`. -/
theorem C9_witness :
    linesOf (run_test_in "sample").data =
      ["#!/bin/bash\n".data,
       ("GROUP=" ++ "sample" ++ "\n").data,
       "export PATH=@abs_top_builddir@:$PATH\n".data,
       "cd @abs_top_srcdir@\n".data,
       "mkdir -p @abs_top_srcdir@/tests/unit/test_projects\n".data,
       (": $\x7bTEST_FLAGS:=\"--log_level=test_suite --catch_system_errors=no\"\x7d\n").data,
       "@abs_top_builddir@/casm_unit_$GROUP $\x7bTEST_FLAGS\x7d\n".data] :=
  C9_run_wrapper_amended "sample" (by decide)
